import Mathlib

/-!
Verification development for the `tiny_trainer` WGSL code-generation model
(`src/model/mod.rs` and `src/tokenizer/mod.rs`).

Embedding conventions:

* `f32` values are modelled as rationals (`ℚ`).  The transcendental
  operations the source uses (`exp`, `sqrt`, `powf`, `sin`, `cos`) are
  bundled in a `FloatOps` record and kept abstract: every theorem holds for
  an arbitrary interpretation, with the positivity of `exp` made an explicit
  hypothesis where a proof needs it.
* The additive attention masks of the source only ever hold the two values
  `0.0` and `f32::NEG_INFINITY`; a mask is therefore modelled as a boolean
  predicate (`true` = `NEG_INFINITY`), and "adding the mask to a score"
  turns the score into `none` (non-finite) exactly when the mask bit is set.
  Score vectors handed to the row softmax live in `List (Option ℚ)`, where
  `none` stands for a non-finite (`-∞`) entry, matching the
  `is_finite` tests inside `softmax_vec`.
* Operations that can panic in Rust (`Array2::row` with an out-of-range
  index, `%` by zero, `logits.row(nrows - 1)` on an empty matrix, a failed
  `assert!`) are modelled with `Option`: `none` is a panic.
* `ndarray::Array2<f32>` / `Array1<f32>` parameter blocks are modelled as
  `Array2Q` / `Array1Q`: an explicit shape plus a total entry function.
  The per-position activation matrices, whose row count is data dependent,
  are `List Array1Q` (one `Array1Q` per sequence position).
* `StdRng::seed_from_u64(42)` is modelled by an explicit sample stream
  `g : ℕ → ℚ` together with an offset that counts how many samples earlier
  constructors consumed; constructors draw from `g` at successive offsets
  exactly in the order the source samples its `rng`.
-/

/-- Abstract interpretations of the floating-point library functions used by
the source (`exp`, `sqrt`, `powf`, `sin`, `cos`). -/
structure FloatOps where
  exp : ℚ → ℚ
  sqrt : ℚ → ℚ
  powf : ℚ → ℚ → ℚ
  sin : ℚ → ℚ
  cos : ℚ → ℚ

/-- Model of `ndarray::Array1<f32>`: a length and a total entry function. -/
structure Array1Q where
  len : ℕ
  entry : ℕ → ℚ

/-- Model of `ndarray::Array2<f32>`: a shape and a total entry function. -/
structure Array2Q where
  rows : ℕ
  cols : ℕ
  entry : ℕ → ℕ → ℚ

/-- `Array2::len()` is the number of elements. -/
def Array2Q.size (m : Array2Q) : ℕ := m.rows * m.cols

/-- The all-zero row used as a harmless default for `List.getD`. -/
def vzero : Array1Q := ⟨0, fun _ => 0⟩

/-- Sum of `f 0 + f 1 + ... + f (n-1)`, the model of the source's
accumulation loops. -/
def sumTo (n : ℕ) (f : ℕ → ℚ) : ℚ := ((List.range n).map f).sum

/-- The special vocabulary tokens of `src/tokenizer/mod.rs`. -/
inductive SpecialToken where
  | Padding
  | Unknown
  | StartOfSequence
  | EndOfSequence

/-- `SpecialToken::token_id` from `src/tokenizer/mod.rs`. -/
def SpecialToken.token_id : SpecialToken → ℕ
  | SpecialToken.Padding => 0
  | SpecialToken.Unknown => 1
  | SpecialToken.StartOfSequence => 2
  | SpecialToken.EndOfSequence => 3

/-- `ModelArchitecture` from `src/model/mod.rs`. -/
inductive ModelArchitecture where
  | Transformer
  | LSTM

/-- The running maximum over the finite entries of a row, exactly the first
loop of `softmax_vec`: the accumulator starts at `NEG_INFINITY` (modelled
`none`) and is replaced by every finite entry exceeding it, so the result is
the greatest finite entry, or `none` when no entry is finite. -/
def maxFinite : List (Option ℚ) → Option ℚ
  | [] => none
  | none :: rest => maxFinite rest
  | some x :: rest =>
    match maxFinite rest with
    | none => some x
    | some m => some (max x m)

/-- One step of the second loop of `softmax_vec`: a finite entry becomes
`exp (v - max)`, a non-finite entry becomes `0.0`. -/
def stabilizedExp (F : FloatOps) (m : ℚ) : Option ℚ → ℚ
  | some x => F.exp (x - m)
  | none => 0

/-- `softmax_vec` from `src/model/mod.rs`.  Empty rows are returned as they
are; rows without a finite maximum and rows whose exponential sum is zero
fall back to the uniform distribution; otherwise every stabilized
exponential is divided by their sum. -/
def softmax_vec (F : FloatOps) (values : List (Option ℚ)) : List ℚ :=
  if values.isEmpty then []
  else
    match maxFinite values with
    | none => values.map (fun _ => 1 / (values.length : ℚ))
    | some m =>
      let exps := values.map (stabilizedExp F m)
      let s := exps.sum
      if s = 0 then values.map (fun _ => 1 / (values.length : ℚ))
      else exps.map (fun e => e / s)

theorem maxFinite_eq_none_iff (values : List (Option ℚ)) :
    maxFinite values = none ↔ ∀ v ∈ values, v = none := by
  induction values with
  | nil => simp [maxFinite]
  | cons hd tl ih =>
    cases hd with
    | none => simpa [maxFinite] using ih
    | some x =>
      simp only [maxFinite]
      constructor
      · intro h
        cases htl : maxFinite tl <;> simp [htl] at h
      · intro h
        exact absurd (h (some x) (List.mem_cons_self _ _)) (by simp)

theorem maxFinite_isSome_of_mem (values : List (Option ℚ)) (x : ℚ)
    (hx : some x ∈ values) : ∃ m, maxFinite values = some m := by
  cases h : maxFinite values with
  | some m => exact ⟨m, rfl⟩
  | none =>
    exact absurd ((maxFinite_eq_none_iff values).mp h _ hx) (by simp)

theorem length_softmax_vec (F : FloatOps) (values : List (Option ℚ)) :
    (softmax_vec F values).length = values.length := by
  by_cases hemp : values.isEmpty
  · simp [softmax_vec, hemp, List.isEmpty_iff.mp hemp]
  · cases hmax : maxFinite values with
    | none => simp [softmax_vec, hemp, hmax]
    | some m =>
      by_cases hs : (values.map (stabilizedExp F m)).sum = 0 <;>
        simp [softmax_vec, hemp, hmax, hs]

theorem list_sum_nonneg (l : List ℚ) (h : ∀ x ∈ l, 0 ≤ x) : 0 ≤ l.sum := by
  induction l with
  | nil => simp
  | cons hd tl ih =>
    simp only [List.sum_cons]
    have := h hd (List.mem_cons_self _ _)
    have := ih (fun x hx => h x (List.mem_cons_of_mem _ hx))
    linarith

theorem list_sum_pos_of_mem (l : List ℚ) (x : ℚ) (hx : x ∈ l) (hxpos : 0 < x)
    (h : ∀ y ∈ l, 0 ≤ y) : 0 < l.sum := by
  induction l with
  | nil => simp at hx
  | cons hd tl ih =>
    simp only [List.sum_cons]
    rcases List.mem_cons.mp hx with rfl | hmem
    · have := list_sum_nonneg tl (fun y hy => h y (List.mem_cons_of_mem _ hy))
      linarith
    · have hhd := h hd (List.mem_cons_self _ _)
      have := ih hmem (fun y hy => h y (List.mem_cons_of_mem _ hy))
      linarith

theorem list_sum_map_div (l : List ℚ) (s : ℚ) :
    (l.map (fun e => e / s)).sum = l.sum / s := by
  induction l with
  | nil => simp
  | cons hd tl ih => simp [ih, add_div]

/-- Softmax sends the non-finite entries of a row to exactly `0`, as long as
the row has at least one finite entry and `exp` is positive: the stabilized
exponential of a non-finite entry is the literal `0.0`, and the final
division leaves it at `0 / s = 0`. -/
theorem softmax_vec_zero_at_none (F : FloatOps) (hexp : ∀ x, 0 < F.exp x)
    (values : List (Option ℚ)) (j : ℕ) (hj : values.get? j = some none)
    (x : ℚ) (hfin : some x ∈ values) :
    (softmax_vec F values).getD j 0 = 0 := by
  have hne : ¬ values.isEmpty := by
    cases values with
    | nil => simp at hfin
    | cons hd tl => simp
  obtain ⟨m, hm⟩ := maxFinite_isSome_of_mem values x hfin
  have hnonneg : ∀ y ∈ values.map (stabilizedExp F m), 0 ≤ y := by
    intro y hy
    obtain ⟨v, _, rfl⟩ := List.mem_map.mp hy
    cases v with
    | none => simp [stabilizedExp]
    | some z => exact le_of_lt (hexp _)
  have hpos : 0 < (values.map (stabilizedExp F m)).sum := by
    refine list_sum_pos_of_mem _ (F.exp (x - m)) ?_ (hexp _) hnonneg
    exact List.mem_map.mpr ⟨some x, hfin, rfl⟩
  have hsne : (values.map (stabilizedExp F m)).sum ≠ 0 := ne_of_gt hpos
  have hj' : values[j]? = some none := by
    simpa [List.get?_eq_getElem?] using hj
  simp only [softmax_vec, hne, if_false, hm]
  rw [if_neg hsne]
  simp [List.getD, List.getElem?_map, hj', stabilizedExp]

/-- Additive masks only ever hold `0.0` or `NEG_INFINITY` in the source, so
a mask is a boolean predicate on (query row, key column); `true` stands for
`NEG_INFINITY`. -/
abbrev Mask := ℕ → ℕ → Bool

/-- `Transformer::self_padding_mask`: column `j` is masked (for every row)
exactly when the id at position `j` is the padding id. -/
def selfPaddingMask (ids : List ℕ) : Mask :=
  fun _i j => decide (ids.get? j = some SpecialToken.Padding.token_id)

/-- `Transformer::cross_padding_mask`: encoder column `j` is masked for
every decoder row exactly when encoder id `j` is the padding id.  The
`query_len` argument only fixes the shape in the source and is unused
here. -/
def crossPaddingMask (_query_len : ℕ) (encoder_ids : List ℕ) : Mask :=
  fun _i j => decide (encoder_ids.get? j = some SpecialToken.Padding.token_id)

/-- `Transformer::look_ahead_mask`: entry `(i, j)` is `NEG_INFINITY`
exactly when `j > i` (strict upper triangle). -/
def lookAheadMask : Mask := fun i j => decide (i < j)

/-- `Transformer::combine_masks` adds the two `{0, NEG_INFINITY}` matrices,
which on the boolean model is pointwise disjunction. -/
def combineMasks (a b : Mask) : Mask := fun i j => a i j || b i j

/-- Model of `Array2::from_shape_fn((r, c), |_| rng.sample(dist))`: entries
are drawn row-major from the sample stream `g` starting at offset `off`. -/
def mkMat (g : ℕ → ℚ) (off r c : ℕ) : Array2Q :=
  ⟨r, c, fun i j => g (off + i * c + j)⟩

/-- Model of `Array1::from_shape_fn(n, |_| rng.sample(dist))` at stream
offset `off`. -/
def mkVec (g : ℕ → ℚ) (off n : ℕ) : Array1Q :=
  ⟨n, fun i => g (off + i)⟩

/-- `LayerNorm` from `src/model/mod.rs`. -/
structure LayerNorm where
  gamma : Array1Q
  beta : Array1Q
  eps : ℚ

/-- `LayerNorm::new`: ones for `gamma`, zeros for `beta`, `eps = 1e-5`.
`LayerNorm::new` draws no random samples. -/
def LayerNorm.new (dim : ℕ) : LayerNorm :=
  ⟨⟨dim, fun _ => 1⟩, ⟨dim, fun _ => 0⟩, 1 / 100000⟩

/-- `LayerNorm::forward`, applied independently to each row: subtract the
row mean, divide by `sqrt(variance + eps)`, then scale and shift. -/
def LayerNorm.forward (F : FloatOps) (ln : LayerNorm) (x : List Array1Q) :
    List Array1Q :=
  x.map (fun row =>
    let n := row.len
    let mean := sumTo n row.entry / (n : ℚ)
    let variance := sumTo n (fun idx => (row.entry idx - mean) * (row.entry idx - mean)) / (n : ℚ)
    let denom := F.sqrt (variance + ln.eps)
    ⟨n, fun idx => (row.entry idx - mean) / denom * ln.gamma.entry idx + ln.beta.entry idx⟩)

def LayerNorm.num_parameters (ln : LayerNorm) : ℕ := ln.gamma.len + ln.beta.len

/-- `Linear` from `src/model/mod.rs`. -/
structure Linear where
  weight : Array2Q
  bias : Array1Q

/-- Number of rng samples `Linear::new(in_dim, out_dim)` consumes. -/
def linDraws (inDim outDim : ℕ) : ℕ := inDim * outDim + outDim

/-- `Linear::new`: weight then bias are sampled from the stream. -/
def Linear.new (g : ℕ → ℚ) (off inDim outDim : ℕ) : Linear :=
  ⟨mkMat g off inDim outDim, mkVec g (off + inDim * outDim) outDim⟩

/-- One row of `x.dot(&weight) + &bias`. -/
def matApplyRow (W : Array2Q) (b : Array1Q) (v : Array1Q) : Array1Q :=
  ⟨W.cols, fun j => sumTo W.rows (fun k => v.entry k * W.entry k j) + b.entry j⟩

/-- `Linear::forward`: row-wise affine map. -/
def Linear.forward (l : Linear) (x : List Array1Q) : List Array1Q :=
  x.map (matApplyRow l.weight l.bias)

def Linear.num_parameters (l : Linear) : ℕ := l.weight.size + l.bias.len

/-- `FeedForward` from `src/model/mod.rs`. -/
structure FeedForward where
  linear1 : Linear
  linear2 : Linear

/-- Number of rng samples `FeedForward::new(d_model, hidden)` consumes. -/
def ffDraws (d hidden : ℕ) : ℕ := linDraws d hidden + linDraws hidden d

def FeedForward.new (g : ℕ → ℚ) (off d hidden : ℕ) : FeedForward :=
  ⟨Linear.new g off d hidden, Linear.new g (off + linDraws d hidden) hidden d⟩

/-- `FeedForward::forward`: first affine map, `ReLU` (`v.max(0.0)`), second
affine map. -/
def FeedForward.forward (f : FeedForward) (x : List Array1Q) : List Array1Q :=
  f.linear2.forward
    ((f.linear1.forward x).map (fun row => ⟨row.len, fun c => max (row.entry c) 0⟩))

def FeedForward.num_parameters (f : FeedForward) : ℕ :=
  f.linear1.num_parameters + f.linear2.num_parameters

/-- `MultiHeadAttention` from `src/model/mod.rs` (the module actually
compiled into the crate; the file `model/attention.rs` is not declared as a
module). -/
structure MultiHeadAttention where
  d_model : ℕ
  nhead : ℕ
  head_dim : ℕ
  w_q : Array2Q
  w_k : Array2Q
  w_v : Array2Q
  w_o : Array2Q
  b_q : Array1Q
  b_k : Array1Q
  b_v : Array1Q
  b_o : Array1Q
  scale : ℚ

/-- Number of rng samples `MultiHeadAttention::new` consumes. -/
def mhaDraws (d : ℕ) : ℕ := 4 * (d * d) + 4 * d

/-- `MultiHeadAttention::new`: four square projection matrices, then four
bias vectors, sampled in source order; `scale = sqrt(head_dim)`. -/
def MultiHeadAttention.new (F : FloatOps) (g : ℕ → ℚ) (off d n : ℕ) :
    MultiHeadAttention :=
  ⟨d, n, d / n,
    mkMat g off d d,
    mkMat g (off + d * d) d d,
    mkMat g (off + 2 * (d * d)) d d,
    mkMat g (off + 3 * (d * d)) d d,
    mkVec g (off + 4 * (d * d)) d,
    mkVec g (off + 4 * (d * d) + d) d,
    mkVec g (off + 4 * (d * d) + 2 * d) d,
    mkVec g (off + 4 * (d * d) + 3 * d) d,
    F.sqrt ((d / n : ℕ) : ℚ)⟩

/-- The pre-softmax score row of head `head` for query row `i`: the scaled
dot product of the head slices, with the additive mask applied; a masked
entry is `score + NEG_INFINITY`, i.e. non-finite (`none`). -/
def MultiHeadAttention.headScores (a : MultiHeadAttention)
    (query_proj key_proj : List Array1Q) (mask : Option Mask) (head i : ℕ) :
    List (Option ℚ) :=
  (List.range key_proj.length).map (fun j =>
    let score :=
      sumTo a.head_dim (fun d =>
        (query_proj.getD i vzero).entry (head * a.head_dim + d) *
          (key_proj.getD j vzero).entry (head * a.head_dim + d)) /
        max a.scale (1 / 1000000)
    match mask with
    | some m => if m i j then none else some score
    | none => some score)

/-- The post-softmax attention weight row of head `head` for query row `i`:
`softmax_vec` applied to that head's score row, exactly as in
`MultiHeadAttention::forward`. -/
def MultiHeadAttention.headWeights (F : FloatOps) (a : MultiHeadAttention)
    (query_proj key_proj : List Array1Q) (mask : Option Mask) (head i : ℕ) :
    List ℚ :=
  softmax_vec F (a.headScores query_proj key_proj mask head i)

/-- `MultiHeadAttention::forward`: project the three inputs, compute the
per-head softmaxed weights, accumulate the weighted value rows into the
context (skipping zero weights, as the source does), and apply the output
projection.  The imperative per-head accumulation writes disjoint column
slices, so the context entry at column `c` is the weighted value sum of
head `c / head_dim` at head-local column `c % head_dim`. -/
def MultiHeadAttention.forward (F : FloatOps) (a : MultiHeadAttention)
    (query key value : List Array1Q) (mask : Option Mask) : List Array1Q :=
  let query_proj := query.map (matApplyRow a.w_q a.b_q)
  let key_proj := key.map (matApplyRow a.w_k a.b_k)
  let value_proj := value.map (matApplyRow a.w_v a.b_v)
  let key_len := key_proj.length
  let context := (List.range query_proj.length).map (fun i =>
    (⟨a.d_model, fun c =>
      let head := c / a.head_dim
      sumTo key_len (fun j =>
        let weight := (a.headWeights F query_proj key_proj mask head i).getD j 0
        if weight = 0 then 0
        else weight * (value_proj.getD j vzero).entry (head * a.head_dim + c % a.head_dim))⟩ :
      Array1Q))
  context.map (matApplyRow a.w_o a.b_o)

def MultiHeadAttention.num_parameters (a : MultiHeadAttention) : ℕ :=
  a.w_q.size + a.w_k.size + a.w_v.size + a.w_o.size +
    a.b_q.len + a.b_k.len + a.b_v.len + a.b_o.len

/-- `EncoderLayer` from `src/model/mod.rs`. -/
structure EncoderLayer where
  self_attn : MultiHeadAttention
  norm1 : LayerNorm
  feedforward : FeedForward
  norm2 : LayerNorm

/-- Number of rng samples `EncoderLayer::new` consumes. -/
def encDraws (d ff : ℕ) : ℕ := mhaDraws d + ffDraws d ff

def EncoderLayer.new (F : FloatOps) (g : ℕ → ℚ) (off d n ff : ℕ) : EncoderLayer :=
  ⟨MultiHeadAttention.new F g off d n, LayerNorm.new d,
    FeedForward.new g (off + mhaDraws d) d ff, LayerNorm.new d⟩

/-- `EncoderLayer::forward`: self-attention, residual, norm, feed-forward,
residual, norm. -/
def EncoderLayer.forward (F : FloatOps) (l : EncoderLayer) (x : List Array1Q)
    (mask : Option Mask) : List Array1Q :=
  let attn_output := l.self_attn.forward F x x x mask
  let residual1 := List.zipWith (fun r s => (⟨r.len, fun c => r.entry c + s.entry c⟩ : Array1Q)) x attn_output
  let normed1 := l.norm1.forward F residual1
  let ff_output := l.feedforward.forward normed1
  let residual2 := List.zipWith (fun r s => (⟨r.len, fun c => r.entry c + s.entry c⟩ : Array1Q)) normed1 ff_output
  l.norm2.forward F residual2

def EncoderLayer.num_parameters (l : EncoderLayer) : ℕ :=
  l.self_attn.num_parameters + l.feedforward.num_parameters +
    l.norm1.num_parameters + l.norm2.num_parameters

/-- `DecoderLayer` from `src/model/mod.rs`. -/
structure DecoderLayer where
  self_attn : MultiHeadAttention
  norm1 : LayerNorm
  cross_attn : MultiHeadAttention
  norm2 : LayerNorm
  feedforward : FeedForward
  norm3 : LayerNorm

/-- Number of rng samples `DecoderLayer::new` consumes. -/
def decDraws (d ff : ℕ) : ℕ := 2 * mhaDraws d + ffDraws d ff

def DecoderLayer.new (F : FloatOps) (g : ℕ → ℚ) (off d n ff : ℕ) : DecoderLayer :=
  ⟨MultiHeadAttention.new F g off d n, LayerNorm.new d,
    MultiHeadAttention.new F g (off + mhaDraws d) d n, LayerNorm.new d,
    FeedForward.new g (off + 2 * mhaDraws d) d ff, LayerNorm.new d⟩

/-- `DecoderLayer::forward`: masked self-attention, residual, norm,
cross-attention against the encoder states, residual, norm, feed-forward,
residual, norm. -/
def DecoderLayer.forward (F : FloatOps) (l : DecoderLayer) (x : List Array1Q)
    (encoder_states : List Array1Q) (self_mask cross_mask : Option Mask) :
    List Array1Q :=
  let self_attn := l.self_attn.forward F x x x self_mask
  let residual1 := List.zipWith (fun r s => (⟨r.len, fun c => r.entry c + s.entry c⟩ : Array1Q)) x self_attn
  let normed1 := l.norm1.forward F residual1
  let cross_attn := l.cross_attn.forward F normed1 encoder_states encoder_states cross_mask
  let residual2 := List.zipWith (fun r s => (⟨r.len, fun c => r.entry c + s.entry c⟩ : Array1Q)) normed1 cross_attn
  let normed2 := l.norm2.forward F residual2
  let ff_output := l.feedforward.forward normed2
  let residual3 := List.zipWith (fun r s => (⟨r.len, fun c => r.entry c + s.entry c⟩ : Array1Q)) normed2 ff_output
  l.norm3.forward F residual3

def DecoderLayer.num_parameters (l : DecoderLayer) : ℕ :=
  l.self_attn.num_parameters + l.cross_attn.num_parameters +
    l.feedforward.num_parameters +
    l.norm1.num_parameters + l.norm2.num_parameters + l.norm3.num_parameters

/-- `Transformer::create_positional_encoding`: the table starts from zeros
and the loops fill every in-range cell with `sin`/`cos` of
`pos / 10000^((2 * (i / 2)) / d_model)` for even/odd channel `i`. -/
def create_positional_encoding (F : FloatOps) (max_seq_len d_model : ℕ) : Array2Q :=
  ⟨max_seq_len, d_model, fun pos i =>
    if pos < max_seq_len ∧ i < d_model then
      let angle := (pos : ℚ) / F.powf 10000 (((2 * (i / 2) : ℕ) : ℚ) / (d_model : ℚ))
      if i % 2 = 0 then F.sin angle else F.cos angle
    else 0⟩

/-- `Transformer` from `src/model/mod.rs`. -/
structure Transformer where
  vocab_size : ℕ
  d_model : ℕ
  nhead : ℕ
  num_layers : ℕ
  max_seq_len : ℕ
  dim_feedforward : ℕ
  token_embedding : Array2Q
  positional_encoding : Array2Q
  encoder_layers : List EncoderLayer
  decoder_layers : List DecoderLayer
  final_linear_weight : Array2Q
  final_linear_bias : Array1Q

/-- The encoder layers pushed by the construction loop: iteration `k` draws
one encoder layer and one decoder layer, so consecutive encoder layers are
`encDraws + decDraws` samples apart. -/
def mkEncoderLayers (F : FloatOps) (g : ℕ → ℚ) (d n ff : ℕ) :
    ℕ → ℕ → List EncoderLayer
  | 0, _ => []
  | k + 1, off =>
    EncoderLayer.new F g off d n ff ::
      mkEncoderLayers F g d n ff k (off + encDraws d ff + decDraws d ff)

/-- The decoder layers pushed by the construction loop; iteration `k`'s
decoder layer starts `encDraws` samples after its encoder layer. -/
def mkDecoderLayers (F : FloatOps) (g : ℕ → ℚ) (d n ff : ℕ) :
    ℕ → ℕ → List DecoderLayer
  | 0, _ => []
  | k + 1, off =>
    DecoderLayer.new F g (off + encDraws d ff) d n ff ::
      mkDecoderLayers F g d n ff k (off + encDraws d ff + decDraws d ff)

/-- `Transformer::new`.  The leading `assert!(d_model % nhead == 0)` is a
construction-time panic, modelled as `none`.  The token embedding is drawn
first, then the layer loop, then the final projection weight and bias. -/
def Transformer.new (F : FloatOps) (g : ℕ → ℚ)
    (vocab_size d_model nhead num_layers max_seq_len dim_feedforward : ℕ) :
    Option Transformer :=
  if d_model % nhead = 0 then
    some
      { vocab_size := vocab_size
        d_model := d_model
        nhead := nhead
        num_layers := num_layers
        max_seq_len := max_seq_len
        dim_feedforward := dim_feedforward
        token_embedding := mkMat g 0 vocab_size d_model
        positional_encoding := create_positional_encoding F max_seq_len d_model
        encoder_layers :=
          mkEncoderLayers F g d_model nhead dim_feedforward num_layers (vocab_size * d_model)
        decoder_layers :=
          mkDecoderLayers F g d_model nhead dim_feedforward num_layers (vocab_size * d_model)
        final_linear_weight :=
          mkMat g (vocab_size * d_model +
            num_layers * (encDraws d_model dim_feedforward + decDraws d_model dim_feedforward))
            d_model vocab_size
        final_linear_bias :=
          mkVec g (vocab_size * d_model +
            num_layers * (encDraws d_model dim_feedforward + decDraws d_model dim_feedforward) +
            d_model * vocab_size) vocab_size }
  else none

/-- `Transformer::sanitize_ids`: keep at most `max_seq_len` ids and coerce
every id outside the vocabulary to the unknown id. -/
def Transformer.sanitize_ids (t : Transformer) (ids : List ℕ) : List ℕ :=
  (ids.take t.max_seq_len).map (fun id =>
    if id < t.vocab_size then id else SpecialToken.Unknown.token_id)

/-- The embedding loop of `Transformer::embed`, with `p` the position of the
head of the remaining list.  `token_embedding.row(token_id)` panics when the
id is out of range, and `position % max_seq_len` panics when `max_seq_len`
is zero; both panics are `none`. -/
def Transformer.embedFrom (t : Transformer) : ℕ → List ℕ → Option (List Array1Q)
  | _, [] => some []
  | p, id :: rest =>
    if id < t.token_embedding.rows ∧ 0 < t.max_seq_len then
      match t.embedFrom (p + 1) rest with
      | some tail =>
        some ((⟨t.token_embedding.cols, fun c =>
          t.token_embedding.entry id c +
            t.positional_encoding.entry (p % t.max_seq_len) c⟩ : Array1Q) :: tail)
      | none => none
    else none

/-- `Transformer::embed`: one row per input id, the sum of the token
embedding row and the positional-encoding row at `position % max_seq_len`. -/
def Transformer.embed (t : Transformer) (input_ids : List ℕ) : Option (List Array1Q) :=
  t.embedFrom 0 input_ids

/-- `Transformer::forward`: sanitize both streams, embed them, build the
four masks, run the encoder stack then the decoder stack, and apply the
final projection to every decoder row. -/
def Transformer.forward (F : FloatOps) (t : Transformer)
    (encoder_input decoder_input : List ℕ) : Option (List Array1Q) :=
  let encoder_ids := t.sanitize_ids encoder_input
  let decoder_ids := t.sanitize_ids decoder_input
  match t.embed encoder_ids, t.embed decoder_ids with
  | some encoder_states, some decoder_states =>
    let encoder_self_mask := selfPaddingMask encoder_ids
    let decoder_self_mask := selfPaddingMask decoder_ids
    let look_ahead := lookAheadMask
    let decoder_mask := combineMasks decoder_self_mask look_ahead
    let cross_mask := crossPaddingMask decoder_ids.length encoder_ids
    let encoder_out := t.encoder_layers.foldl
      (fun st layer => layer.forward F st (some encoder_self_mask)) encoder_states
    let decoder_out := t.decoder_layers.foldl
      (fun st layer => layer.forward F st encoder_out (some decoder_mask) (some cross_mask))
      decoder_states
    some (decoder_out.map (matApplyRow t.final_linear_weight t.final_linear_bias))
  | _, _ => none

/-- `Transformer::num_parameters`: element counts of the embedding, the
final projection, and every layer; the positional-encoding table is not
counted. -/
def Transformer.num_parameters (t : Transformer) : ℕ :=
  t.token_embedding.size + t.final_linear_weight.size + t.final_linear_bias.len +
    (t.encoder_layers.map EncoderLayer.num_parameters).sum +
    (t.decoder_layers.map DecoderLayer.num_parameters).sum

/-- `last_row.to_vec()`: materialize a row of known length as a list. -/
def vecToList (v : Array1Q) : List ℚ := (List.range v.len).map v.entry

/-- Default used by `CodeGenerationModel::new` when `max_seq_len` is absent. -/
def DEFAULT_MAX_SEQ_LEN : ℕ := 512

/-- Default used by `CodeGenerationModel::new` when `dim_feedforward` is absent. -/
def DEFAULT_DIM_FEEDFORWARD : ℕ := 2048

/-- `CodeGenerationModel` from `src/model/mod.rs`. -/
structure CodeGenerationModel where
  architecture : ModelArchitecture
  vocab_size : ℕ
  d_model : ℕ
  nhead : ℕ
  num_layers : ℕ
  max_seq_len : ℕ
  dim_feedforward : ℕ
  transformer : Option Transformer

/-- `CodeGenerationModel::new`: the Transformer architecture builds an inner
`Transformer` (whose construction can fail on the divisibility assert, a
panic modelled as `none`); the LSTM architecture stores no transformer and
performs no divisibility check at all. -/
def CodeGenerationModel.new (F : FloatOps) (g : ℕ → ℚ)
    (architecture : ModelArchitecture) (vocab_size d_model nhead num_layers : ℕ)
    (dim_feedforward max_seq_len : Option ℕ) : Option CodeGenerationModel :=
  match architecture with
  | ModelArchitecture.Transformer =>
    match Transformer.new F g vocab_size d_model nhead num_layers
        (max_seq_len.getD DEFAULT_MAX_SEQ_LEN) (dim_feedforward.getD DEFAULT_DIM_FEEDFORWARD) with
    | some t =>
      some ⟨ModelArchitecture.Transformer, vocab_size, d_model, nhead, num_layers,
        max_seq_len.getD DEFAULT_MAX_SEQ_LEN, dim_feedforward.getD DEFAULT_DIM_FEEDFORWARD, some t⟩
    | none => none
  | ModelArchitecture.LSTM =>
    some ⟨ModelArchitecture.LSTM, vocab_size, d_model, nhead, num_layers,
      max_seq_len.getD DEFAULT_MAX_SEQ_LEN, dim_feedforward.getD DEFAULT_DIM_FEEDFORWARD, none⟩

/-- `CodeGenerationModel::forward`.  For the Transformer architecture the
decoder stream is the start-of-sequence id followed by the input ids, the
inner forward produces the full logits matrix, and only its last row is
returned; `logits.row(logits.nrows() - 1)` panics on an empty matrix, so an
empty logits matrix yields `none`.  The LSTM stub returns `vocab_size`
zeros. -/
def CodeGenerationModel.forward (F : FloatOps) (m : CodeGenerationModel)
    (input_ids : List ℕ) : Option (List ℚ) :=
  match m.architecture with
  | ModelArchitecture.Transformer =>
    match m.transformer with
    | some t =>
      let decoder_input := SpecialToken.StartOfSequence.token_id :: input_ids
      match t.forward F input_ids decoder_input with
      | some logits =>
        match logits.getLast? with
        | some last_row => some (vecToList last_row)
        | none => none
      | none => none
    | none => none
  | ModelArchitecture.LSTM => some (List.replicate m.vocab_size 0)

/-- `CodeGenerationModel::num_parameters`. -/
def CodeGenerationModel.num_parameters (m : CodeGenerationModel) : ℕ :=
  match m.architecture with
  | ModelArchitecture.Transformer =>
    (m.transformer.map Transformer.num_parameters).getD 0
  | ModelArchitecture.LSTM => 0

/-!
The WGSL tokenizer (`src/tokenizer/mod.rs`).  `tokenize` repeatedly calls
`regex::Regex::find` on the remaining text and accepts a match only when it
starts at offset 0, which is equivalent to asking whether the pattern
matches at offset 0 and, if so, how long the (leftmost-first) match is.
Each pattern class below is therefore embedded as a function
`List Char → Option ℕ` returning that length.  The patterns are transcribed
alternative by alternative, with the `regex` crate's leftmost-first
alternation order and greedy quantifiers, and `\b` resolved at offset 0
(the slice start counts as a non-word position).
-/

/-- A regex word character, `[0-9A-Za-z_]`. -/
def wordChar (c : Char) : Bool := c.isAlphanum || c = '_'

/-- Match a literal at the head of the text, returning the rest. -/
def litRem : List Char → List Char → Option (List Char)
  | [], cs => some cs
  | _ :: _, [] => none
  | a :: alt, c :: cs => if a = c then litRem alt cs else none

/-- A `\b` at offset 0 holds exactly when the text starts with a word
character (the position before the slice is non-word). -/
def boundary0 : List Char → Bool
  | [] => false
  | c :: _ => wordChar c

/-- A `\b` after an alternative ending in a word character holds exactly
when the rest is empty or starts with a non-word character. -/
def boundaryAfter : List Char → Bool
  | [] => true
  | c :: _ => !wordChar c

/-- The keyword alternatives of `WGSLPatterns::default`, in pattern order. -/
def keywordAlts : List String :=
  ["fn", "var", "let", "const", "struct", "type", "if", "else", "for",
   "while", "loop", "break", "continue", "return", "switch", "case",
   "default", "discard", "@compute", "@fragment", "@vertex", "@group",
   "@binding", "@location", "@builtin", "@workgroup_size", "@stage",
   "@size", "@align", "@interpolate"]

/-- Offset-0 match length of the keyword pattern
`\b(fn|var|...|@interpolate)\b`. -/
def keywordLen (cs : List Char) : Option ℕ :=
  if boundary0 cs then
    keywordAlts.findSome? (fun alt =>
      match litRem alt.toList cs with
      | some rest => if boundaryAfter rest then some alt.length else none
      | none => none)
  else none

/-- The head alternatives of the type-specifier pattern, with the character
classes `[234]` expanded in class order. -/
def typeHeads : List String :=
  ["vec2", "vec3", "vec4",
   "mat2x2", "mat2x3", "mat2x4", "mat3x2", "mat3x3", "mat3x4",
   "mat4x2", "mat4x3", "mat4x4",
   "array", "texture_1d", "texture_2d", "texture_3d", "texture_cube",
   "texture_2d_array", "texture_storage_1d", "texture_storage_2d",
   "texture_storage_3d", "sampler", "sampler_comparison", "atomic", "ptr"]

/-- Match length of the trailing `<[^>]+>` of the type-specifier pattern:
a `<`, a maximal non-empty run of non-`>` characters, then `>`. -/
def angleLen : List Char → Option ℕ
  | '<' :: rest =>
    let run := rest.takeWhile (fun c => c ≠ '>')
    if run.isEmpty then none
    else
      match rest.drop run.length with
      | '>' :: _ => some (run.length + 2)
      | _ => none
  | _ => none

/-- Offset-0 match length of the type-specifier pattern
`\b(vec[234]|mat[234]x[234]|...)<[^>]+>`: the first head alternative (in
pattern order) whose continuation `<[^>]+>` also matches wins. -/
def typeSpecLen (cs : List Char) : Option ℕ :=
  if boundary0 cs then
    typeHeads.findSome? (fun h =>
      match litRem h.toList cs with
      | some rest =>
        match angleLen rest with
        | some n => some (h.length + n)
        | none => none
      | none => none)
  else none

/-- The attribute-name alternatives of `@(compute|fragment|...)`, in
pattern order. -/
def attrAlts : List String :=
  ["compute", "fragment", "vertex", "group", "binding", "location",
   "builtin", "workgroup_size", "stage", "size", "align", "interpolate"]

/-- Offset-0 match length of the attribute pattern `@(compute|...)`
(no word boundaries in this pattern). -/
def attributeLen : List Char → Option ℕ
  | '@' :: rest =>
    attrAlts.findSome? (fun alt =>
      match litRem alt.toList rest with
      | some _ => some (alt.length + 1)
      | none => none)
  | _ => none

/-- A regex hexadecimal digit, `[0-9a-fA-F]`. -/
def hexDigit (c : Char) : Bool :=
  c.isDigit || decide ('a' ≤ c ∧ c ≤ 'f') || decide ('A' ≤ c ∧ c ≤ 'F')

/-- Length consumed by the optional exponent group `([eE][+-]?[0-9]+)?`:
zero unless the whole group matches greedily. -/
def expPartLen (cs : List Char) : ℕ :=
  match cs with
  | c :: rest =>
    if c = 'e' ∨ c = 'E' then
      match rest with
      | s :: r2 =>
        if s = '+' ∨ s = '-' then
          let digits := r2.takeWhile Char.isDigit
          if digits.isEmpty then 0 else 2 + digits.length
        else
          let digits := rest.takeWhile Char.isDigit
          if digits.isEmpty then 0 else 1 + digits.length
      | [] => 0
    else 0
  | [] => 0

/-- Offset-0 match length of the second number alternative
`[0-9]+\.?[0-9]*([eE][+-]?[0-9]+)?[fu]?`, all parts greedy. -/
def numberLenDec (cs : List Char) : Option ℕ :=
  let digits := cs.takeWhile Char.isDigit
  if digits.isEmpty then none
  else
    let rest1 := cs.drop digits.length
    match rest1 with
    | '.' :: rest2 =>
      let frac := rest2.takeWhile Char.isDigit
      let rest3 := rest2.drop frac.length
      let eLen := expPartLen rest3
      let rest4 := rest3.drop eLen
      match rest4 with
      | c :: _ =>
        if c = 'f' ∨ c = 'u' then some (digits.length + 1 + frac.length + eLen + 1)
        else some (digits.length + 1 + frac.length + eLen)
      | [] => some (digits.length + 1 + frac.length + eLen)
    | _ =>
      let eLen := expPartLen rest1
      let rest2 := rest1.drop eLen
      match rest2 with
      | c :: _ =>
        if c = 'f' ∨ c = 'u' then some (digits.length + eLen + 1)
        else some (digits.length + eLen)
      | [] => some (digits.length + eLen)

/-- Offset-0 match length of the number pattern
`0x[0-9a-fA-F]+|[0-9]+\.?[0-9]*([eE][+-]?[0-9]+)?[fu]?`: when the hex
alternative fails, the decimal alternative is still tried. -/
def numberLen (cs : List Char) : Option ℕ :=
  match cs with
  | '0' :: 'x' :: rest =>
    let run := rest.takeWhile hexDigit
    if run.isEmpty then numberLenDec cs else some (2 + run.length)
  | _ => numberLenDec cs

/-- The operator character class `[+\-*/%&|^<>=!~]`. -/
def opChars : List Char :=
  ['+', '-', '*', '/', '%', '&', '|', '^', '<', '>', '=', '!', '~']

/-- Offset-0 match length of the operator pattern: its first alternative
`[+\-*/%&|^<>=!~]+` is greedy and subsumes the multi-character
alternatives, so the match is the maximal run of operator characters. -/
def operatorLen (cs : List Char) : Option ℕ :=
  let run := cs.takeWhile (fun c => opChars.contains c)
  if run.isEmpty then none else some run.length

/-- The punctuation character class `[(){}[];:,.]`. -/
def punctChars : List Char :=
  ['(', ')', '\x7b', '\x7d', '[', ']', ';', ':', ',', '.']

/-- Offset-0 match length of the punctuation pattern. -/
def punctLen : List Char → Option ℕ
  | c :: _ => if punctChars.contains c then some 1 else none
  | [] => none

/-- Offset-0 match length of the identifier pattern
`[a-zA-Z_][a-zA-Z0-9_]*`. -/
def identLen : List Char → Option ℕ
  | c :: rest =>
    if c.isAlpha || c = '_' then some (1 + (rest.takeWhile wordChar).length)
    else none
  | [] => none

/-- One position of the tokenize loop: the pattern classes are tried in the
source's priority order (type specifier, attribute, keyword, number,
operator, punctuation, identifier). -/
def matchLenAt (cs : List Char) : Option ℕ :=
  match typeSpecLen cs with
  | some n => some n
  | none =>
    match attributeLen cs with
    | some n => some n
    | none =>
      match keywordLen cs with
      | some n => some n
      | none =>
        match numberLen cs with
        | some n => some n
        | none =>
          match operatorLen cs with
          | some n => some n
          | none =>
            match punctLen cs with
            | some n => some n
            | none => identLen cs

/-- The tokenize loop.  Whitespace is skipped; a match at the current
offset is emitted and skipped past; an unmatched character is silently
dropped.  Every successful match has positive length and every step
consumes at least one character, so fuel equal to the text length makes the
recursion equal to the source's `while` loop. -/
def tokenizeAux : ℕ → List Char → List String
  | 0, _ => []
  | _ + 1, [] => []
  | fuel + 1, c :: rest =>
    if c.isWhitespace then tokenizeAux fuel rest
    else
      match matchLenAt (c :: rest) with
      | some n => String.mk ((c :: rest).take n) :: tokenizeAux fuel ((c :: rest).drop n)
      | none => tokenizeAux fuel rest

/-- `WGSLTokenizer::tokenize`.  The `lowercase` argument is the tokenizer's
configuration flag; the compiled pattern set is fixed, so the tokenizer
state contributes nothing else to tokenization. -/
def WGSLTokenizer.tokenize (lowercase : Bool) (text : String) : List String :=
  let t := if lowercase then text.toLower else text
  tokenizeAux t.toList.length t.toList

/-- Modelled from the spec: the encoder stream is "the first max_seq_len
input ids with every id >= vocab_size replaced by the unknown id (1)". -/
def specEncoderStream (vocab_size max_seq_len : ℕ) (ids : List ℕ) : List ℕ :=
  (ids.take max_seq_len).map (fun id => if vocab_size ≤ id then 1 else id)

/-- Modelled from the spec: the decoder stream is "the start-of-sequence id
(2) followed by the same input ids, this concatenation likewise truncated
to max_seq_len and sanitized the same way". -/
def specDecoderStream (vocab_size max_seq_len : ℕ) (ids : List ℕ) : List ℕ :=
  ((2 :: ids).take max_seq_len).map (fun id => if vocab_size ≤ id then 1 else id)

/-- A concrete interpretation of the floating-point operations, used by the
closed instantiations below (`exp` is the constant `1`, which is positive). -/
def F0 : FloatOps := ⟨fun _ => 1, fun _ => 1, fun _ _ => 1, fun _ => 0, fun _ => 1⟩

/-- A concrete rng sample stream for the closed instantiations below. -/
def g0 : ℕ → ℚ := fun _ => 0

/-- A small concrete transformer: vocabulary 4, width 1, one head, one
layer, maximum sequence length 2, feed-forward width 1. -/
def T0 : Transformer := (Transformer.new F0 g0 4 1 1 1 2 1).get rfl

/-- A small concrete attention module. -/
def A0 : MultiHeadAttention := MultiHeadAttention.new F0 g0 0 1 1

theorem length_pos_ne_nil {α : Type} (l : List α) (h : l ≠ []) : 0 < l.length :=
  List.length_pos.mpr h

/-- C4: every non-empty row handed to the shared row-softmax sums to
exactly 1 in the rational model; an all-non-finite row and a zero
exponential sum both degrade to the uniform distribution (each entry
`1/n`); otherwise the output is the max-subtracted exponential
normalization.  `softmax_vec` is the single softmax of the crate and is the
one applied inside `MultiHeadAttention.forward` (via
`MultiHeadAttention.headWeights`), so the same behaviour holds at every
row-softmax site. -/
theorem softmax_row_normalization (F : FloatOps) (values : List (Option ℚ))
    (h : values ≠ []) :
    (softmax_vec F values).sum = 1
    ∧ ((∀ v ∈ values, v = none) →
        softmax_vec F values = values.map (fun _ => 1 / (values.length : ℚ)))
    ∧ (∀ m, maxFinite values = some m →
        (values.map (stabilizedExp F m)).sum = 0 →
        softmax_vec F values = values.map (fun _ => 1 / (values.length : ℚ)))
    ∧ (∀ m, maxFinite values = some m →
        (values.map (stabilizedExp F m)).sum ≠ 0 →
        softmax_vec F values =
          (values.map (stabilizedExp F m)).map
            (fun e => e / (values.map (stabilizedExp F m)).sum)) := by
  have hemp : values.isEmpty = false := by
    simp [List.isEmpty_iff, h]
  have hlen : (values.length : ℚ) ≠ 0 := by
    exact_mod_cast (length_pos_ne_nil values h).ne'
  have huni : (values.map (fun _ => 1 / (values.length : ℚ))).sum = 1 := by
    rw [List.map_const', List.sum_replicate, nsmul_eq_mul]
    field_simp
  refine ⟨?_, ?_, ?_, ?_⟩
  · cases hmax : maxFinite values with
    | none => simpa [softmax_vec, hemp, hmax] using huni
    | some m =>
      by_cases hs : (values.map (stabilizedExp F m)).sum = 0
      · simpa [softmax_vec, hemp, hmax, hs] using huni
      · simp only [softmax_vec, hemp, Bool.false_eq_true, if_false, hmax]
        rw [if_neg hs, list_sum_map_div]
        exact div_self hs
  · intro hall
    have hmax := (maxFinite_eq_none_iff values).mpr hall
    simp [softmax_vec, hemp, hmax]
  · intro m hm hs
    simp [softmax_vec, hemp, hm, hs]
  · intro m hm hs
    simp only [softmax_vec, hemp, Bool.false_eq_true, if_false, hm]
    rw [if_neg hs]

theorem softmax_row_normalization_witness :
    ([some (0 : ℚ), none] ≠ ([] : List (Option ℚ)))
    ∧ (softmax_vec F0 [some (0 : ℚ), none]).sum = 1 :=
  ⟨by simp, (softmax_row_normalization F0 [some (0 : ℚ), none] (by simp)).1⟩

/-- The decoder stream always starts with the sanitized start-of-sequence
id, which is `2` (or `1` when the vocabulary is too small) and in either
case is never the padding id `0`. -/
theorem sanitize_sos_head (t : Transformer) (ids : List ℕ)
    (hne : t.sanitize_ids (SpecialToken.StartOfSequence.token_id :: ids) ≠ []) :
    ∃ x, (t.sanitize_ids (SpecialToken.StartOfSequence.token_id :: ids)).get? 0 = some x ∧
      x ≠ SpecialToken.Padding.token_id := by
  cases hmax : t.max_seq_len with
  | zero =>
    exact absurd (by simp [Transformer.sanitize_ids, hmax]) hne
  | succ k =>
    refine ⟨if SpecialToken.StartOfSequence.token_id < t.vocab_size
      then SpecialToken.StartOfSequence.token_id else SpecialToken.Unknown.token_id, ?_, ?_⟩
    · simp [Transformer.sanitize_ids, hmax, List.take_succ_cons]
    · split <;> decide

/-- C1: in the decoder self-attention of the forward pass — the attention
call whose mask is the combination of the decoder padding mask and the
strict look-ahead mask over the sanitized decoder stream `sos :: input` —
the post-softmax weight from query row `i` to any key position `j > i` is
exactly `0`, for every head, every query row and arbitrary projected query
and key states.  The proof uses that key position `0` (the start-of-sequence
token) is never masked, so the softmax row never takes the uniform
fallback. -/
theorem decoder_self_attention_no_look_ahead (F : FloatOps)
    (hexp : ∀ x, 0 < F.exp x) (t : Transformer) (input_ids : List ℕ)
    (a : MultiHeadAttention) (query_proj key_proj : List Array1Q)
    (hkey : key_proj.length =
      (t.sanitize_ids (SpecialToken.StartOfSequence.token_id :: input_ids)).length)
    (head i j : ℕ) (hj : j < key_proj.length) (hij : i < j) :
    (a.headWeights F query_proj key_proj
      (some (combineMasks
        (selfPaddingMask (t.sanitize_ids (SpecialToken.StartOfSequence.token_id :: input_ids)))
        lookAheadMask)) head i).getD j 0 = 0 := by
  have hne : t.sanitize_ids (SpecialToken.StartOfSequence.token_id :: input_ids) ≠ [] := by
    intro hnil
    rw [hnil] at hkey
    simp only [List.length_nil] at hkey
    omega
  obtain ⟨x0, hx0, hx0ne⟩ := sanitize_sos_head t input_ids hne
  have h0lt : 0 < key_proj.length := lt_of_le_of_lt (Nat.zero_le j) hj
  have hjscore : (a.headScores query_proj key_proj
      (some (combineMasks
        (selfPaddingMask (t.sanitize_ids (SpecialToken.StartOfSequence.token_id :: input_ids)))
        lookAheadMask)) head i).get? j = some none := by
    unfold MultiHeadAttention.headScores
    rw [List.get?_map, List.get?_range hj]
    simp [combineMasks, lookAheadMask, hij]
  have hx0' : (t.sanitize_ids (SpecialToken.StartOfSequence.token_id :: input_ids))[0]?
      = some x0 := by
    simpa [List.get?_eq_getElem?] using hx0
  have hmask0 : combineMasks
      (selfPaddingMask (t.sanitize_ids (SpecialToken.StartOfSequence.token_id :: input_ids)))
      lookAheadMask i 0 = false := by
    simp [combineMasks, selfPaddingMask, lookAheadMask, hx0', hx0ne]
  have h0mem : (some (sumTo a.head_dim (fun d =>
      (query_proj.getD i vzero).entry (head * a.head_dim + d) *
        (key_proj.getD 0 vzero).entry (head * a.head_dim + d)) /
      max a.scale (1 / 1000000)) : Option ℚ) ∈
      a.headScores query_proj key_proj
        (some (combineMasks
          (selfPaddingMask (t.sanitize_ids (SpecialToken.StartOfSequence.token_id :: input_ids)))
          lookAheadMask)) head i := by
    unfold MultiHeadAttention.headScores
    refine List.mem_map.mpr ⟨0, List.mem_range.mpr h0lt, ?_⟩
    simp [hmask0]
  have hzero := softmax_vec_zero_at_none F hexp _ j hjscore _ h0mem
  simpa [MultiHeadAttention.headWeights] using hzero

theorem decoder_self_attention_no_look_ahead_witness :
    ((0 : ℕ) < 1)
    ∧ [vzero, vzero].length =
        (T0.sanitize_ids (SpecialToken.StartOfSequence.token_id :: [0])).length
    ∧ (A0.headWeights F0 [vzero, vzero] [vzero, vzero]
        (some (combineMasks
          (selfPaddingMask (T0.sanitize_ids (SpecialToken.StartOfSequence.token_id :: [0])))
          lookAheadMask)) 0 0).getD 1 0 = 0 := by
  refine ⟨by decide, by decide, ?_⟩
  exact decoder_self_attention_no_look_ahead F0 (fun x => by norm_num [F0]) T0 [0] A0
    [vzero, vzero] [vzero, vzero] (by decide) 0 0 1 (by decide) (by decide)

set_option maxRecDepth 10000 in
/-- C7: with lowercase disabled, tokenizing the WGSL fragment
`fn main() -> vec4<f32> { return vec4<f32>(1.0, 0.0, 0.0, 1.0); }` yields
(among others) the tokens `fn`, `main`, `vec4<f32>` (one token), `return`
and `1.0`, and tokenizing `@compute @workgroup_size(8, 8, 1)` yields
`@compute` and `@workgroup_size` as single attribute tokens. -/
theorem wgsl_tokenize_expected_tokens :
    ("fn" ∈ WGSLTokenizer.tokenize false
        "fn main() -> vec4<f32> \x7b return vec4<f32>(1.0, 0.0, 0.0, 1.0); \x7d"
    ∧ "main" ∈ WGSLTokenizer.tokenize false
        "fn main() -> vec4<f32> \x7b return vec4<f32>(1.0, 0.0, 0.0, 1.0); \x7d"
    ∧ "vec4<f32>" ∈ WGSLTokenizer.tokenize false
        "fn main() -> vec4<f32> \x7b return vec4<f32>(1.0, 0.0, 0.0, 1.0); \x7d"
    ∧ "return" ∈ WGSLTokenizer.tokenize false
        "fn main() -> vec4<f32> \x7b return vec4<f32>(1.0, 0.0, 0.0, 1.0); \x7d"
    ∧ "1.0" ∈ WGSLTokenizer.tokenize false
        "fn main() -> vec4<f32> \x7b return vec4<f32>(1.0, 0.0, 0.0, 1.0); \x7d")
    ∧ ("@compute" ∈ WGSLTokenizer.tokenize false "@compute @workgroup_size(8, 8, 1)"
    ∧ "@workgroup_size" ∈ WGSLTokenizer.tokenize false "@compute @workgroup_size(8, 8, 1)") := by
  decide

/-- C3: the transformer forward pass processes exactly the spec's streams:
`Transformer.forward` sanitizes its encoder input with `sanitize_ids`, and
`CodeGenerationModel.forward` passes `sos :: input` as the decoder input,
which `Transformer.forward` sanitizes the same way.  `sanitize_ids` equals
the spec-modelled streams (truncate to `max_seq_len`, remap every id `>=
vocab_size` to the unknown id `1`), with the pointwise characterization
spelled out. -/
theorem forward_stream_sanitization (t : Transformer) (ids : List ℕ) :
    t.sanitize_ids ids = specEncoderStream t.vocab_size t.max_seq_len ids
    ∧ t.sanitize_ids (SpecialToken.StartOfSequence.token_id :: ids) =
        specDecoderStream t.vocab_size t.max_seq_len ids
    ∧ (t.sanitize_ids ids).length = min ids.length t.max_seq_len
    ∧ ∀ k, k < (t.sanitize_ids ids).length →
        (t.sanitize_ids ids).getD k 0 =
          if t.vocab_size ≤ ids.getD k 0 then 1 else ids.getD k 0 := by
  have hfun : ∀ id, (if id < t.vocab_size then id else SpecialToken.Unknown.token_id)
      = (if t.vocab_size ≤ id then 1 else id) := by
    intro id
    by_cases h : id < t.vocab_size
    · simp [h, Nat.not_le.mpr h]
    · simp [h, Nat.le_of_not_lt h, SpecialToken.token_id]
  refine ⟨?_, ?_, ?_, ?_⟩
  · unfold Transformer.sanitize_ids specEncoderStream
    exact List.map_congr_left (fun a _ => hfun a)
  · unfold Transformer.sanitize_ids specDecoderStream
    exact List.map_congr_left (fun a _ => hfun a)
  · simp [Transformer.sanitize_ids, Nat.min_comm]
  · intro k hk
    have hk' : k < min t.max_seq_len ids.length := by
      simpa [Transformer.sanitize_ids] using hk
    have hk1 : k < ids.length := lt_of_lt_of_le hk' (min_le_right _ _)
    have hk2 : k < t.max_seq_len := lt_of_lt_of_le hk' (min_le_left _ _)
    simp [Transformer.sanitize_ids, List.getD, List.getElem?_map,
      List.getElem?_take, hk2, List.getElem?_eq_getElem hk1, hfun]

theorem forward_stream_sanitization_witness :
    (0 < (T0.sanitize_ids [9]).length)
    ∧ (T0.sanitize_ids [9]).getD 0 0 =
        (if T0.vocab_size ≤ [9].getD 0 0 then 1 else [9].getD 0 0) :=
  ⟨by decide, (forward_stream_sanitization T0 [9]).2.2.2 0 (by decide)⟩

/-- A concrete input on which the claim "construction fails for every
architecture variant when `d_model` is not divisible by `nhead`" is false:
with the LSTM variant, `CodeGenerationModel::new(LSTM, 10, 3, 2, ...)`
never reaches the divisibility assert (it builds no `Transformer`) and
construction succeeds. -/
theorem lstm_skips_divisibility_check :
    3 % 2 ≠ 0 ∧
      (CodeGenerationModel.new F0 g0 ModelArchitecture.LSTM 10 3 2 1
        (some 8) (some 4)).isSome = true :=
  ⟨by decide, rfl⟩

/-- C5 (amended): when `d_model` is not divisible by `nhead`, construction
with the Transformer architecture fails immediately (the constructor's
assert panics, no model is produced, so the failure can never be deferred
to forward time or hidden by truncation); the LSTM stub variant performs no
such check and constructs successfully. -/
theorem divisibility_fails_transformer_construction (F : FloatOps) (g : ℕ → ℚ)
    (v d n L : ℕ) (ff ml : Option ℕ) (h : d % n ≠ 0) :
    CodeGenerationModel.new F g ModelArchitecture.Transformer v d n L ff ml = none
    ∧ (CodeGenerationModel.new F g ModelArchitecture.LSTM v d n L ff ml).isSome = true := by
  refine ⟨?_, rfl⟩
  simp [CodeGenerationModel.new, Transformer.new, h]

theorem divisibility_fails_transformer_construction_witness :
    3 % 2 ≠ 0 ∧
      (CodeGenerationModel.new F0 g0 ModelArchitecture.Transformer 10 3 2 1
          (some 8) (some 4) = none
        ∧ (CodeGenerationModel.new F0 g0 ModelArchitecture.LSTM 10 3 2 1
            (some 8) (some 4)).isSome = true) :=
  ⟨by decide,
    divisibility_fails_transformer_construction F0 g0 10 3 2 1 (some 8) (some 4) (by decide)⟩

theorem exists_getLast?_of_ne_nil {α : Type} (l : List α) (h : l ≠ []) :
    ∃ a, l.getLast? = some a := by
  cases hl : l.getLast? with
  | some a => exact ⟨a, rfl⟩
  | none => exact absurd (List.getLast?_eq_none_iff.mp hl) h

theorem mem_of_getLast?_some {α : Type} : ∀ (l : List α) (a : α),
    l.getLast? = some a → a ∈ l := by
  intro l
  induction l with
  | nil => intro a ha; simp at ha
  | cons hd tl ih =>
    intro a ha
    cases tl with
    | nil =>
      simp only [List.getLast?_singleton, Option.some.injEq] at ha
      simp [ha]
    | cons b tl2 =>
      rw [List.getLast?_cons_cons] at ha
      exact List.mem_cons_of_mem _ (ih a ha)

theorem length_mha_forward (F : FloatOps) (a : MultiHeadAttention)
    (query key value : List Array1Q) (mask : Option Mask) :
    (a.forward F query key value mask).length = query.length := by
  simp [MultiHeadAttention.forward]

theorem length_encoder_forward (F : FloatOps) (l : EncoderLayer)
    (x : List Array1Q) (mask : Option Mask) :
    (l.forward F x mask).length = x.length := by
  simp [EncoderLayer.forward, LayerNorm.forward, FeedForward.forward,
    Linear.forward, length_mha_forward, List.length_zipWith, min_self]

theorem length_decoder_forward (F : FloatOps) (l : DecoderLayer)
    (x encoder_states : List Array1Q) (self_mask cross_mask : Option Mask) :
    (l.forward F x encoder_states self_mask cross_mask).length = x.length := by
  simp [DecoderLayer.forward, LayerNorm.forward, FeedForward.forward,
    Linear.forward, length_mha_forward, List.length_zipWith, min_self]

theorem length_foldl_encoder (F : FloatOps) (mask : Option Mask) :
    ∀ (layers : List EncoderLayer) (st : List Array1Q),
      (layers.foldl (fun s l => l.forward F s mask) st).length = st.length := by
  intro layers
  induction layers with
  | nil => intro st; rfl
  | cons hd tl ih =>
    intro st
    simp only [List.foldl_cons]
    rw [ih, length_encoder_forward]

theorem length_foldl_decoder (F : FloatOps) (encoder_states : List Array1Q)
    (self_mask cross_mask : Option Mask) :
    ∀ (layers : List DecoderLayer) (st : List Array1Q),
      (layers.foldl (fun s l => l.forward F s encoder_states self_mask cross_mask)
        st).length = st.length := by
  intro layers
  induction layers with
  | nil => intro st; rfl
  | cons hd tl ih =>
    intro st
    simp only [List.foldl_cons]
    rw [ih, length_decoder_forward]

/-- The embedding loop succeeds (and yields one row per id) whenever every
id indexes a real embedding row and the positional table is non-empty. -/
theorem embedFrom_isSome (t : Transformer) (ids : List ℕ)
    (hids : ∀ id ∈ ids, id < t.token_embedding.rows) (hmax : 0 < t.max_seq_len) :
    ∀ p, ∃ st, t.embedFrom p ids = some st ∧ st.length = ids.length := by
  induction ids with
  | nil => intro p; exact ⟨[], rfl, rfl⟩
  | cons hd tl ih =>
    intro p
    have hhd : hd < t.token_embedding.rows := hids hd (List.mem_cons_self _ _)
    obtain ⟨st, hst, hlen⟩ := ih (fun id hid => hids id (List.mem_cons_of_mem _ hid)) (p + 1)
    refine ⟨(⟨t.token_embedding.cols, fun c =>
        t.token_embedding.entry hd c +
          t.positional_encoding.entry (p % t.max_seq_len) c⟩ : Array1Q) :: st, ?_, ?_⟩
    · unfold Transformer.embedFrom
      rw [if_pos ⟨hhd, hmax⟩, hst]
    · simp [hlen]

/-- Sanitized ids are always inside the vocabulary once it holds the
reserved unknown id (`vocab_size ≥ 2`). -/
theorem sanitize_ids_lt (t : Transformer) (ids : List ℕ) (hv : 2 ≤ t.vocab_size) :
    ∀ id ∈ t.sanitize_ids ids, id < t.vocab_size := by
  intro id hid
  simp only [Transformer.sanitize_ids, List.mem_map] at hid
  obtain ⟨x, _, rfl⟩ := hid
  by_cases h : x < t.vocab_size
  · simpa [h] using h
  · simpa [h, SpecialToken.token_id] using hv

/-- Sanitizing a non-empty list is non-empty as soon as `max_seq_len ≥ 1`. -/
theorem sanitize_cons_ne_nil (t : Transformer) (x : ℕ) (ids : List ℕ)
    (hmax : 0 < t.max_seq_len) : t.sanitize_ids (x :: ids) ≠ [] := by
  cases hm : t.max_seq_len with
  | zero => omega
  | succ k => simp [Transformer.sanitize_ids, hm]

/-- `Transformer::forward` succeeds on arbitrary inputs once the embedding
has a row for every sanitized id and the positional table is non-empty: the
logits matrix has one row per sanitized decoder id, each of width
`final_linear_weight.cols`. -/
theorem transformer_forward_spec (F : FloatOps) (t : Transformer)
    (enc dec : List ℕ) (hrows : t.vocab_size ≤ t.token_embedding.rows)
    (hv : 2 ≤ t.vocab_size) (hmax : 0 < t.max_seq_len) :
    ∃ logits, t.forward F enc dec = some logits
      ∧ logits.length = (t.sanitize_ids dec).length
      ∧ ∀ r ∈ logits, r.len = t.final_linear_weight.cols := by
  have hencids : ∀ id ∈ t.sanitize_ids enc, id < t.token_embedding.rows :=
    fun id hid => lt_of_lt_of_le (sanitize_ids_lt t enc hv id hid) hrows
  have hdecids : ∀ id ∈ t.sanitize_ids dec, id < t.token_embedding.rows :=
    fun id hid => lt_of_lt_of_le (sanitize_ids_lt t dec hv id hid) hrows
  obtain ⟨encSt, hencSt, _⟩ := embedFrom_isSome t _ hencids hmax 0
  obtain ⟨decSt, hdecSt, hdeclen⟩ := embedFrom_isSome t _ hdecids hmax 0
  obtain ⟨logits, hfwd⟩ : ∃ logits, t.forward F enc dec = some logits := by
    simp only [Transformer.forward, Transformer.embed]
    rw [hencSt, hdecSt]
    exact ⟨_, rfl⟩
  have hfwd' := hfwd
  simp only [Transformer.forward, Transformer.embed, hencSt, hdecSt] at hfwd'
  injection hfwd' with hlog
  refine ⟨logits, hfwd, ?_, ?_⟩
  · rw [← hlog, List.length_map, length_foldl_decoder, hdeclen]
  · intro r hr
    rw [← hlog] at hr
    obtain ⟨row, _, rfl⟩ := List.mem_map.mp hr
    rfl

/-- Full forward pass of a model built by `CodeGenerationModel::new` with
the Transformer architecture: as soon as the vocabulary holds the reserved
unknown id (`vocab_size ≥ 2`) and the positional table is non-empty
(`max_seq_len ≥ 1`), the forward pass never panics; the decoder stream
`sos :: input` is never empty, so the final `logits.row(nrows - 1)` access
is in bounds, and the returned row has exactly `vocab_size` entries. -/
theorem model_forward_some (F : FloatOps) (g : ℕ → ℚ) (v d n L : ℕ)
    (ff ml : Option ℕ) (m : CodeGenerationModel) (ids : List ℕ)
    (hm : CodeGenerationModel.new F g ModelArchitecture.Transformer v d n L ff ml = some m)
    (hv : 2 ≤ v) (hml : 0 < ml.getD DEFAULT_MAX_SEQ_LEN) :
    ∃ t logits last_row,
      m.transformer = some t
      ∧ t.forward F ids (SpecialToken.StartOfSequence.token_id :: ids) = some logits
      ∧ logits.getLast? = some last_row
      ∧ last_row.len = v
      ∧ m.forward F ids = some (vecToList last_row) := by
  unfold CodeGenerationModel.new at hm
  cases ht : Transformer.new F g v d n L (ml.getD DEFAULT_MAX_SEQ_LEN)
      (ff.getD DEFAULT_DIM_FEEDFORWARD) with
  | none => rw [ht] at hm; exact absurd hm (by simp)
  | some t0 =>
    rw [ht] at hm
    simp only [Option.some.injEq] at hm
    subst hm
    unfold Transformer.new at ht
    by_cases hd : d % n = 0
    · rw [if_pos hd] at ht
      injection ht with ht2
      have hvoc : t0.vocab_size = v := by rw [← ht2]
      have hrows : t0.token_embedding.rows = v := by rw [← ht2]; rfl
      have hmaxl : t0.max_seq_len = ml.getD DEFAULT_MAX_SEQ_LEN := by rw [← ht2]
      have hcols : t0.final_linear_weight.cols = v := by rw [← ht2]; rfl
      have hmax0 : 0 < t0.max_seq_len := by rw [hmaxl]; exact hml
      obtain ⟨logits, hfwd, hlen, hrow⟩ := transformer_forward_spec F t0 ids
        (SpecialToken.StartOfSequence.token_id :: ids)
        (by rw [hvoc, hrows]) (by rw [hvoc]; exact hv) hmax0
      have hdecne : (t0.sanitize_ids
          (SpecialToken.StartOfSequence.token_id :: ids)) ≠ [] :=
        sanitize_cons_ne_nil t0 _ _ hmax0
      have hlogne : logits ≠ [] := by
        intro hnil
        rw [hnil] at hlen
        exact hdecne (List.eq_nil_of_length_eq_zero hlen.symm)
      obtain ⟨last_row, hlast⟩ := exists_getLast?_of_ne_nil logits hlogne
      have hlastlen : last_row.len = v := by
        rw [hrow last_row (mem_of_getLast?_some logits last_row hlast), hcols]
      refine ⟨t0, logits, last_row, rfl, hfwd, hlast, hlastlen, ?_⟩
      unfold CodeGenerationModel.forward
      simp only [hfwd, hlast]
    · rw [if_neg hd] at ht
      exact absurd ht (by simp)

/-- C2: on a Transformer-architecture model (with the reserved ids in the
vocabulary, `vocab_size ≥ 2`, and a non-empty positional table,
`max_seq_len ≥ 1`), `forward` on any non-empty input returns exactly
`vocab_size` logits, and the returned vector is the last row of the decoder
output projection — the logits for the next-token position only, not the
full sequence.  In the rational embedding every returned entry is a
rational number, i.e. finite by construction. -/
theorem forward_returns_vocab_size_logits (F : FloatOps) (g : ℕ → ℚ)
    (v d n L : ℕ) (ff ml : Option ℕ) (m : CodeGenerationModel) (ids : List ℕ)
    (hm : CodeGenerationModel.new F g ModelArchitecture.Transformer v d n L ff ml = some m)
    (hv : 2 ≤ v) (hml : 0 < ml.getD DEFAULT_MAX_SEQ_LEN) (_hids : ids ≠ []) :
    ∃ l, m.forward F ids = some l ∧ l.length = v
      ∧ ∃ t logits last_row,
        m.transformer = some t
        ∧ t.forward F ids (SpecialToken.StartOfSequence.token_id :: ids) = some logits
        ∧ logits.getLast? = some last_row
        ∧ l = vecToList last_row := by
  obtain ⟨t, logits, last_row, htr, hfwd, hlast, hlen, hout⟩ :=
    model_forward_some F g v d n L ff ml m ids hm hv hml
  exact ⟨vecToList last_row, hout, by simp [vecToList, hlen],
    t, logits, last_row, htr, hfwd, hlast, rfl⟩

theorem forward_returns_vocab_size_logits_witness :
    ∃ m, CodeGenerationModel.new F0 g0 ModelArchitecture.Transformer 2 1 1 1
        (some 1) (some 1) = some m
      ∧ ([0] ≠ ([] : List ℕ))
      ∧ ∃ l, m.forward F0 [0] = some l ∧ l.length = 2 := by
  refine ⟨_, rfl, by decide, ?_⟩
  obtain ⟨l, h1, h2, _⟩ := forward_returns_vocab_size_logits F0 g0 2 1 1 1
    (some 1) (some 1) _ [0] rfl (by decide) (by decide) (by decide)
  exact ⟨l, h1, h2⟩

/-- C9: a Transformer model with `vocab_size ≥ 2` and `max_seq_len ≥ 1` has
a total forward pass: on every input id sequence — empty or containing
arbitrarily large ids — `forward` returns a value (never panics), because
sanitization coerces out-of-range ids to the in-range unknown id `1` and
the decoder stream `sos :: input` is never empty, keeping the final
`logits.row(nrows - 1)` access in bounds. -/
theorem forward_total_on_valid_models (F : FloatOps) (g : ℕ → ℚ)
    (v d n L : ℕ) (ff ml : Option ℕ) (m : CodeGenerationModel)
    (hm : CodeGenerationModel.new F g ModelArchitecture.Transformer v d n L ff ml = some m)
    (hv : 2 ≤ v) (hml : 0 < ml.getD DEFAULT_MAX_SEQ_LEN) (ids : List ℕ) :
    (m.forward F ids).isSome = true := by
  obtain ⟨t, logits, last_row, _, _, _, _, hout⟩ :=
    model_forward_some F g v d n L ff ml m ids hm hv hml
  simp [hout]

theorem forward_total_on_valid_models_witness :
    ∃ m, CodeGenerationModel.new F0 g0 ModelArchitecture.Transformer 2 1 1 1
        (some 1) (some 1) = some m
      ∧ (m.forward F0 []).isSome = true
      ∧ (m.forward F0 [1000000]).isSome = true := by
  refine ⟨_, rfl, ?_, ?_⟩
  · exact forward_total_on_valid_models F0 g0 2 1 1 1 (some 1) (some 1) _ rfl
      (by decide) (by decide) []
  · exact forward_total_on_valid_models F0 g0 2 1 1 1 (some 1) (some 1) _ rfl
      (by decide) (by decide) [1000000]

theorem encoder_layer_param_count (F : FloatOps) (g : ℕ → ℚ) (off d n ff : ℕ) :
    (EncoderLayer.new F g off d n ff).num_parameters =
      4 * d * d + 4 * d + d * ff + ff + ff * d + d + 2 * (2 * d) := by
  simp only [EncoderLayer.new, EncoderLayer.num_parameters, MultiHeadAttention.new,
    MultiHeadAttention.num_parameters, FeedForward.new, FeedForward.num_parameters,
    Linear.new, Linear.num_parameters, LayerNorm.new, LayerNorm.num_parameters,
    mkMat, mkVec, Array2Q.size]
  ring

theorem decoder_layer_param_count (F : FloatOps) (g : ℕ → ℚ) (off d n ff : ℕ) :
    (DecoderLayer.new F g off d n ff).num_parameters =
      2 * (4 * d * d + 4 * d) + d * ff + ff + ff * d + d + 3 * (2 * d) := by
  simp only [DecoderLayer.new, DecoderLayer.num_parameters, MultiHeadAttention.new,
    MultiHeadAttention.num_parameters, FeedForward.new, FeedForward.num_parameters,
    Linear.new, Linear.num_parameters, LayerNorm.new, LayerNorm.num_parameters,
    mkMat, mkVec, Array2Q.size]
  ring

theorem mkEncoderLayers_param_sum (F : FloatOps) (g : ℕ → ℚ) (d n ff : ℕ) :
    ∀ (k off : ℕ),
      ((mkEncoderLayers F g d n ff k off).map EncoderLayer.num_parameters).sum
        = k * (4 * d * d + 4 * d + d * ff + ff + ff * d + d + 2 * (2 * d)) := by
  intro k
  induction k with
  | zero => intro off; simp [mkEncoderLayers]
  | succ k ih =>
    intro off
    simp only [mkEncoderLayers, List.map_cons, List.sum_cons,
      encoder_layer_param_count, ih]
    ring

theorem mkDecoderLayers_param_sum (F : FloatOps) (g : ℕ → ℚ) (d n ff : ℕ) :
    ∀ (k off : ℕ),
      ((mkDecoderLayers F g d n ff k off).map DecoderLayer.num_parameters).sum
        = k * (2 * (4 * d * d + 4 * d) + d * ff + ff + ff * d + d + 3 * (2 * d)) := by
  intro k
  induction k with
  | zero => intro off; simp [mkDecoderLayers]
  | succ k ih =>
    intro off
    simp only [mkDecoderLayers, List.map_cons, List.sum_cons,
      decoder_layer_param_count, ih]
    ring

/-- C6: for every valid Transformer configuration, `num_parameters` equals
the claim's closed form — token embedding, encoder stack, decoder stack and
output projection — with the positional-encoding table not counted. -/
theorem num_parameters_closed_form (F : FloatOps) (g : ℕ → ℚ)
    (v d n L ffdim maxlen : ℕ) (m : CodeGenerationModel)
    (hm : CodeGenerationModel.new F g ModelArchitecture.Transformer v d n L
      (some ffdim) (some maxlen) = some m) :
    m.num_parameters =
      v * d
      + L * (4 * d * d + 4 * d + d * ffdim + ffdim + ffdim * d + d + 2 * (2 * d))
      + L * (2 * (4 * d * d + 4 * d) + d * ffdim + ffdim + ffdim * d + d + 3 * (2 * d))
      + (d * v + v) := by
  unfold CodeGenerationModel.new at hm
  simp only [Option.getD_some] at hm
  cases ht : Transformer.new F g v d n L maxlen ffdim with
  | none => rw [ht] at hm; exact absurd hm (by simp)
  | some t0 =>
    rw [ht] at hm
    simp only [Option.some.injEq] at hm
    subst hm
    unfold Transformer.new at ht
    by_cases hd : d % n = 0
    · rw [if_pos hd] at ht
      injection ht with ht2
      subst ht2
      simp only [CodeGenerationModel.num_parameters, Option.map_some', Option.getD_some,
        Transformer.num_parameters, Array2Q.size, mkMat, mkVec,
        mkEncoderLayers_param_sum, mkDecoderLayers_param_sum]
      ring
    · rw [if_neg hd] at ht
      exact absurd ht (by simp)

theorem num_parameters_closed_form_witness :
    ∃ m, CodeGenerationModel.new F0 g0 ModelArchitecture.Transformer 2 2 1 1
        (some 3) (some 1) = some m
      ∧ m.num_parameters =
        2 * 2 + 1 * (4 * 2 * 2 + 4 * 2 + 2 * 3 + 3 + 3 * 2 + 2 + 2 * (2 * 2))
          + 1 * (2 * (4 * 2 * 2 + 4 * 2) + 2 * 3 + 3 + 3 * 2 + 2 + 3 * (2 * 2))
          + (2 * 2 + 2) :=
  ⟨_, rfl, num_parameters_closed_form F0 g0 2 2 1 1 3 1 _ rfl⟩

/-- Each embedded row is the token-embedding row of its id plus the
positional-encoding row at `position % max_seq_len` — the wrap-around
access of `Transformer::embed`, stated for an arbitrary starting
position of the loop. -/
theorem embedFrom_entry (t : Transformer) : ∀ (ids : List ℕ) (p0 : ℕ)
    (st : List Array1Q), t.embedFrom p0 ids = some st →
    ∀ q, q < ids.length → ∀ c,
      (st.getD q vzero).entry c =
        t.token_embedding.entry (ids.getD q 0) c +
          t.positional_encoding.entry ((p0 + q) % t.max_seq_len) c := by
  intro ids
  induction ids with
  | nil =>
    intro p0 st h q hq
    simp at hq
  | cons hd tl ih =>
    intro p0 st h q hq c
    unfold Transformer.embedFrom at h
    by_cases hcond : hd < t.token_embedding.rows ∧ 0 < t.max_seq_len
    · rw [if_pos hcond] at h
      cases htl : t.embedFrom (p0 + 1) tl with
      | none => rw [htl] at h; exact absurd h (by simp)
      | some tail =>
        rw [htl] at h
        injection h with h2
        subst h2
        cases q with
        | zero => simp
        | succ q2 =>
          have hq2 : q2 < tl.length := by simpa using hq
          have hstep := ih (p0 + 1) tail htl q2 hq2 c
          have harith : p0 + 1 + q2 = p0 + (q2 + 1) := by omega
          rw [harith] at hstep
          simpa using hstep
    · rw [if_neg hcond] at h
      exact absurd h (by simp)

/-- C8: the positional-encoding table entry at position `p < max_seq_len`
and channel `i < d_model` is `sin` of `p / 10000^(2*floor(i/2)/d_model)`
for even `i` and `cos` of the same angle for odd `i`; and the embedding
step reads the table at row `position % max_seq_len`, wrapping positions at
or beyond the table length around instead of extending the table or
failing. -/
theorem positional_encoding_formula_and_wraparound (F : FloatOps)
    (max_seq_len d_model p i : ℕ) (hp : p < max_seq_len) (hi : i < d_model)
    (t : Transformer) (ids : List ℕ) (st : List Array1Q) (q c : ℕ)
    (hemb : t.embed ids = some st) (hq : q < ids.length) :
    (create_positional_encoding F max_seq_len d_model).entry p i =
      (if i % 2 = 0
        then F.sin ((p : ℚ) / F.powf 10000 (((2 * (i / 2) : ℕ) : ℚ) / (d_model : ℚ)))
        else F.cos ((p : ℚ) / F.powf 10000 (((2 * (i / 2) : ℕ) : ℚ) / (d_model : ℚ))))
    ∧ (st.getD q vzero).entry c =
        t.token_embedding.entry (ids.getD q 0) c +
          t.positional_encoding.entry (q % t.max_seq_len) c := by
  constructor
  · simp [create_positional_encoding, hp, hi]
  · have := embedFrom_entry t ids 0 st hemb q hq c
    simpa using this

theorem positional_encoding_formula_and_wraparound_witness :
    ∃ st, T0.embed [0, 1] = some st
      ∧ ((create_positional_encoding F0 2 2).entry 1 1 =
          (if 1 % 2 = 0
            then F0.sin ((1 : ℚ) / F0.powf 10000 (((2 * (1 / 2) : ℕ) : ℚ) / (2 : ℚ)))
            else F0.cos ((1 : ℚ) / F0.powf 10000 (((2 * (1 / 2) : ℕ) : ℚ) / (2 : ℚ))))
        ∧ (st.getD 1 vzero).entry 0 =
            T0.token_embedding.entry ([0, 1].getD 1 0) 0 +
              T0.positional_encoding.entry (1 % T0.max_seq_len) 0) :=
  ⟨_, rfl, positional_encoding_formula_and_wraparound F0 2 2 1 1 (by decide) (by decide)
    T0 [0, 1] _ 1 0 rfl (by decide)⟩

/-- C10: model construction is a pure function of the architecture, the
size arguments and the (seed-42) parameter sample stream `g`: the source
seeds its rng with the fixed constant 42 inside `Transformer::new`, so two
constructions with identical arguments read the identical stream and any
two models so constructed are equal, and their forward outputs agree on
every input — no randomness enters at inference time. -/
theorem construction_and_inference_deterministic (F : FloatOps) (g : ℕ → ℚ)
    (arch : ModelArchitecture) (v d n L : ℕ) (ff ml : Option ℕ)
    (m1 m2 : CodeGenerationModel)
    (h1 : CodeGenerationModel.new F g arch v d n L ff ml = some m1)
    (h2 : CodeGenerationModel.new F g arch v d n L ff ml = some m2) :
    m1 = m2 ∧ ∀ ids, m1.forward F ids = m2.forward F ids := by
  have h := Option.some.inj (h1.symm.trans h2)
  subst h
  exact ⟨rfl, fun _ => rfl⟩

theorem construction_and_inference_deterministic_witness :
    ∃ m1 m2,
      CodeGenerationModel.new F0 g0 ModelArchitecture.Transformer 2 1 1 1
          (some 1) (some 1) = some m1
      ∧ CodeGenerationModel.new F0 g0 ModelArchitecture.Transformer 2 1 1 1
          (some 1) (some 1) = some m2
      ∧ m1 = m2 ∧ m1.forward F0 [3] = m2.forward F0 [3] := by
  refine ⟨_, _, rfl, rfl, ?_, ?_⟩
  · exact (construction_and_inference_deterministic F0 g0 ModelArchitecture.Transformer
      2 1 1 1 (some 1) (some 1) _ _ rfl rfl).1
  · exact (construction_and_inference_deterministic F0 g0 ModelArchitecture.Transformer
      2 1 1 1 (some 1) (some 1) _ _ rfl rfl).2 [3]
